import Mathlib

/-!
Verification of the Pai Sho engine core (coords.ts, board.ts, rules.ts,
move.ts, engine.ts, parse.ts, eval.ts) against its specification.

Shallow embedding notes, applying to everything below:
* Board cells are 1-based (1..249); `coordsOf`/`indexOf` from coords.ts are
  0-based.  The source's conventions are reproduced exactly, including the
  places where rules.ts passes a 1-based board index straight to the 0-based
  `coordsOf` (blooming, orchid trap, rock/knotweed scans, the wheel planner
  center); see the individual definitions.
* JavaScript numbers used as integers become `Nat`/`Int`; the evaluator's
  floating-point scores become `ℚ` (every operation used on them is exact on
  the structure the theorems need).
* `Board.getAtIndex` throws a RangeError outside 1..249 in the source; the
  model returns 0 (empty) there, and every theorem keeps its indices inside
  the checked range.  `coordsOf` reads `XY_BY_INDEX[i]`, an array with
  exactly 249 entries; an out-of-range read yields `undefined` in the source
  (crashing on use) and is modelled as the point (0,0).
-/

deriving instance DecidableEq for Except

namespace PaiSho

/-! ## Geometry (src/coords.ts) -/

/-- Integer coordinate pair on the grid (`XY` in coords.ts). -/
structure XY where
  x : Int
  y : Int
deriving DecidableEq, Repr

/-- `ROW_WIDTHS`: widths of the 17 rows, bottom (y = -8) first. -/
def rowWidths : List Nat := [9, 11, 13, 15, 17, 17, 17, 17, 17, 17, 17, 17, 17, 15, 13, 11, 9]

/-- `ROW_OFFSETS`: running sums of the row widths. -/
def rowOffsets : List Nat :=
  (rowWidths.foldl (fun st w => (st.1 ++ [st.2], st.2 + w)) (([] : List Nat), 0)).1

/-- `NUM_SQUARES = ROW_OFFSETS[16] + ROW_WIDTHS[16]`. -/
def numSquares : Nat := rowOffsets.getD 16 0 + rowWidths.getD 16 0

/-- Leftmost x of row `r`: `-((w - 1) / 2)` with `w` the row width. -/
def rowMinX (r : Nat) : Int := -(((rowWidths.getD r 0 : Int) - 1) / 2)

/-- `XY_BY_INDEX`: the table of coordinates in index order (the source fills
`arr[toIndex(r, c)]` for `r` then `c` ascending, and `toIndex(r, c) =
ROW_OFFSETS[r] + c`, so the table is the row blocks concatenated in order). -/
def xyByIndex : List XY :=
  (List.range 17).flatMap (fun r =>
    (List.range (rowWidths.getD r 0)).map (fun c => ⟨rowMinX r + c, (r : Int) - 8⟩))

/-- `coordsOf(index) = XY_BY_INDEX[index]` (0-based; out of range is
`undefined` in the source, modelled as (0,0)). -/
def coordsOf (i : Nat) : XY := xyByIndex.getD i ⟨0, 0⟩

/-- `toIndex(row, col)`: -1 when out of range, else `ROW_OFFSETS[row] + col`. -/
def toIndexZ (row col : Int) : Int :=
  if row < 0 ∨ 17 ≤ row then -1
  else
    let w : Int := rowWidths.getD row.toNat 0
    if col < 0 ∨ w ≤ col then -1
    else (rowOffsets.getD row.toNat 0 : Int) + col

/-- `indexOf(x, y)`: reverse lookup, -1 when (x,y) is not a board point.
(`Number.isInteger(col)` always holds for integer inputs.) -/
def indexOfZ (x y : Int) : Int :=
  let row := y + 8
  if row < 0 ∨ 17 ≤ row then -1
  else
    let w : Int := rowWidths.getD row.toNat 0
    let minX := -((w - 1) / 2)
    let col := x - minX
    if col < 0 ∨ w ≤ col then -1
    else toIndexZ row col

/-! ## Board (board.ts) -/

-- `TypeId` piece codes.
namespace TypeId

def Empty : Nat := 0
def R3 : Nat := 1
def R4 : Nat := 2
def R5 : Nat := 3
def W3 : Nat := 4
def W4 : Nat := 5
def W5 : Nat := 6
def Lotus : Nat := 7
def Orchid : Nat := 8
def Rock : Nat := 9
def Wheel : Nat := 10
def Boat : Nat := 11
def Knotweed : Nat := 12

end TypeId

/-- The two sides.  `Owner.Host = 0`, `Owner.Guest = 1` in board.ts. -/
inductive Owner where
  | host
  | guest
deriving DecidableEq, Repr

/-- `packPiece(type, owner) = (type & 0x0f) | ((owner & 0x01) << 4)`; since the
low nibble and the shifted bit do not overlap, the bitwise-or is the sum. -/
def packPiece (t o : Nat) : Nat := t % 16 + 16 * (o % 2)

/-- Type nibble of a packed cell (`packed & 0x0f`). -/
def unpackType (p : Nat) : Nat := p % 16

/-- Owner bit of a packed cell (`(packed >> 4) & 0x01`). -/
def unpackOwnerBit (p : Nat) : Nat := p / 16 % 2

/-- Owner of a packed cell as a side (board.ts maps bit 0 to Host). -/
def ownerOfPacked (p : Nat) : Owner := if p / 16 % 2 = 1 then .guest else .host

/-- A board is its 249 cells, addressed by 1-based index (value semantics:
`clone()` is the identity on values). -/
def Board := Nat → Nat

/-- `Board.getAtIndex` (1-based; the source throws a RangeError outside
1..249, modelled as the empty cell 0). -/
def getAtIndex (b : Board) (i : Nat) : Nat := if 1 ≤ i ∧ i ≤ 249 then b i else 0

/-- `Board.setAtIndex` (every write performed by the embedded code stays in
range 1..249). -/
def setAtIndex (b : Board) (i v : Nat) : Board := fun j => if j = i then v else b j

/-- The empty board. -/
def emptyBoard : Board := fun _ => 0

/-! ## Rules: gates, gardens, harmony (src/rules.ts) -/

/-- `isGateCoord(x, y)`. -/
def isGateCoord (x y : Int) : Bool := (x.natAbs = 8 ∧ y = 0) ∨ (y.natAbs = 8 ∧ x = 0)

/-- Intersection classification values. -/
inductive IType where
  | gate
  | white
  | red
  | neutral
deriving DecidableEq, Repr

/-- `intersectionType(x, y)`: the quadrant classifier. -/
def intersectionType (x y : Int) : IType :=
  if isGateCoord x y then .gate
  else if x = 0 ∨ y = 0 then .neutral
  else if x.natAbs = y.natAbs then .neutral
  else if 0 < x * y then .white
  else if x * y < 0 then .red
  else .neutral

/-- `getGardenType(x, y)` (same four values, re-dispatched). -/
def getGardenType (x y : Int) : IType :=
  match intersectionType x y with
  | .gate => .gate
  | .white => .white
  | .red => .red
  | .neutral => .neutral

/-- Garden colors of basic flowers. -/
inductive Garden where
  | R
  | W
deriving DecidableEq, Repr

/-- Position of a (garden, number) pair on `HARMONY_CYCLE`
`["R3","R4","R5","W3","W4","W5"]`; -1 when absent (`indexOf` miss). -/
def harmonyCycleIdx (g : Garden) (n : Nat) : Int :=
  match g, n with
  | .R, 3 => 0
  | .R, 4 => 1
  | .R, 5 => 2
  | .W, 3 => 3
  | .W, 4 => 4
  | .W, 5 => 5
  | _, _ => -1

/-- `harmoniousPair`: cyclic distance 1 or 5 on the 6-element cycle. -/
def harmoniousPair (aG : Garden) (aN : Nat) (bG : Garden) (bN : Nat) : Bool :=
  let ai := harmonyCycleIdx aG aN
  let bi := harmonyCycleIdx bG bN
  if ai < 0 ∨ bi < 0 then false
  else (ai - bi).natAbs = 1 ∨ (ai - bi).natAbs = 5

/-- `isClashPair`: same number, different garden. -/
def isClashPair (aG : Garden) (aN : Nat) (bG : Garden) (bN : Nat) : Bool :=
  aG ≠ bG ∧ aN = bN

/-- Piece descriptors (`PieceKind` in rules.ts). -/
inductive PieceKind where
  | empty
  | basic (owner : Owner) (garden : Garden) (number : Nat) (blooming : Bool)
  | lotus (owner : Owner) (blooming : Bool)
  | orchid (owner : Owner) (blooming : Bool) (wild : Bool)
  | accent (owner : Owner) (code : Nat)
deriving DecidableEq, Repr

/-- `isBloomingIndex(index)`: rules.ts passes the 1-based board index straight
to the 0-based `coordsOf`, so this tests the coordinates of the NEXT cell in
board order (and reads past the table at index 249). -/
def isBloomingIndex (index : Nat) : Bool :=
  ¬ isGateCoord (coordsOf index).x (coordsOf index).y

/-- `ownerHasBloomingLotus(board, owner)`. -/
def ownerHasBloomingLotus (b : Board) (o : Owner) : Bool :=
  (List.range 249).any (fun i =>
    let idx := i + 1
    let p := getAtIndex b idx
    p ≠ 0 ∧ unpackType p = TypeId.Lotus ∧ ownerOfPacked p = o ∧ isBloomingIndex idx)

/-- `getPieceDescriptor(board, index)` (index 1-based). -/
def getPieceDescriptor (b : Board) (index : Nat) : PieceKind :=
  let p := getAtIndex b index
  if p = 0 then .empty
  else
    let o := ownerOfPacked p
    let bl := isBloomingIndex index
    match unpackType p with
    | 1 => .basic o .R 3 bl
    | 2 => .basic o .R 4 bl
    | 3 => .basic o .R 5 bl
    | 4 => .basic o .W 3 bl
    | 5 => .basic o .W 4 bl
    | 6 => .basic o .W 5 bl
    | 7 => .lotus o bl
    | 8 => .orchid o bl (ownerHasBloomingLotus b o)
    | 9 => .accent o 9
    | 10 => .accent o 10
    | 11 => .accent o 11
    | 12 => .accent o 12
    | _ => .empty

/-- The 8-neighborhood offsets in the source's loop order (dx outer, dy
inner, skipping (0,0)). -/
def neigh8Deltas : List (Int × Int) :=
  [(-1, -1), (-1, 0), (-1, 1), (0, -1), (0, 1), (1, -1), (1, 0), (1, 1)]

/-- Flower type test used by `isTrappedByOrchid` / `planBoatOnFlower`. -/
def isFlowerType (t : Nat) : Bool :=
  t = TypeId.R3 ∨ t = TypeId.R4 ∨ t = TypeId.R5 ∨ t = TypeId.W3 ∨
  t = TypeId.W4 ∨ t = TypeId.W5 ∨ t = TypeId.Lotus ∨ t = TypeId.Orchid

/-- `isTrappedByOrchid(board, index)`: rules.ts computes the victim's
coordinates as `coordsOf(index)` with the 1-based index, i.e. the coordinates
of the next cell in board order; the 8-neighborhood is searched around that
shifted point.  `indexOf` results are converted back to 1-based. -/
def isTrappedByOrchid (b : Board) (index : Nat) : Bool :=
  let pv := getAtIndex b index
  if pv = 0 then false
  else if ¬ isFlowerType (unpackType pv) then false
  else
    let vo := ownerOfPacked pv
    let c := coordsOf index
    neigh8Deltas.any (fun d =>
      let n0 := indexOfZ (c.x + d.1) (c.y + d.2)
      if n0 = -1 then false
      else
        let q := getAtIndex b (n0.toNat + 1)
        q ≠ 0 ∧ unpackType q = TypeId.Orchid ∧ ownerOfPacked q ≠ vo)

/-! ### Axis scans -/

/-- Fuel-driven walk used to list the lattice points strictly between two
aligned points; the fuel equals the axis distance, which the walk consumes
exactly, so it mirrors the source's `while` loop step for step. -/
def walkAux (stepX stepY bx byTarget : Int) : Nat → Int → Int → List XY
  | 0, _, _ => []
  | fuel + 1, cx, cy =>
    if cx = bx ∧ cy = byTarget then []
    else ⟨cx, cy⟩ :: walkAux stepX stepY bx byTarget fuel (cx + stepX) (cy + stepY)

/-- Points strictly between (ax,ay) and (bx,by), stepping by `Math.sign`. -/
def strictlyBetween (ax ay bx byTarget : Int) : List XY :=
  let sx := Int.sign (bx - ax)
  let sy := Int.sign (byTarget - ay)
  walkAux sx sy bx byTarget ((bx - ax).natAbs + (byTarget - ay).natAbs) (ax + sx) (ay + sy)

/-- `lineOfSightClear(board, aIdx1, bIdx1)` (move.ts, current version: the
coordinates use `coordsOf(idx - 1)`, the board reads use the 1-based index).
Every strictly-between point must exist, be empty and not be a gate. -/
def lineOfSightClear (b : Board) (a1 b1 : Nat) : Bool :=
  let a := coordsOf (a1 - 1)
  let c := coordsOf (b1 - 1)
  if a.x ≠ c.x ∧ a.y ≠ c.y then false
  else
    (strictlyBetween a.x a.y c.x c.y).all (fun p =>
      let mid0 := indexOfZ p.x p.y
      mid0 ≠ -1 ∧ getAtIndex b (mid0.toNat + 1) = 0 ∧ ¬ isGateCoord p.x p.y)

/-- `scanAxis(board, aIdx1, bIdx1, pred)` (rules.ts): note the coordinates are
`coordsOf(aIdx1)` — the 1-based index again fed to the 0-based table — and
invalid intermediate points are skipped (not a failure). -/
def scanAxis (b : Board) (a1 b1 : Nat) (pred : Nat → Bool) : Bool :=
  let a := coordsOf a1
  let c := coordsOf b1
  if a.x ≠ c.x ∧ a.y ≠ c.y then false
  else
    (strictlyBetween a.x a.y c.x c.y).any (fun p =>
      let mid0 := indexOfZ p.x p.y
      if mid0 = -1 then false else pred (mid0.toNat + 1))

/-- `isRockAt(board, idx1)`. -/
def isRockAt (b : Board) (i : Nat) : Bool :=
  let p := getAtIndex b i
  p ≠ 0 ∧ unpackType p = TypeId.Rock

/-- `hasRockBlockingHarmony(board, aIdx1, bIdx1)` (shifted coordinates as in
`scanAxis`). -/
def hasRockBlockingHarmony (b : Board) (a1 b1 : Nat) : Bool :=
  let a := coordsOf a1
  let c := coordsOf b1
  if a.x ≠ c.x ∧ a.y ≠ c.y then false
  else
    scanAxis b a1 b1 (fun mid1 =>
      let p := getAtIndex b mid1
      p ≠ 0 ∧ unpackType p = TypeId.Rock) ∨
    isRockAt b a1 ∨ isRockAt b b1

/-- `isHarmonyCancelledByKnotweed(board, aIdx1, bIdx1)` (the endpoint
coordinates are again `coordsOf(idx1)`, shifted by one cell). -/
def isHarmonyCancelledByKnotweed (b : Board) (a1 b1 : Nat) : Bool :=
  let near := fun (i : Nat) =>
    let c := coordsOf i
    neigh8Deltas.any (fun d =>
      let n0 := indexOfZ (c.x + d.1) (c.y + d.2)
      if n0 = -1 then false
      else
        let p := getAtIndex b (n0.toNat + 1)
        p ≠ 0 ∧ unpackType p = TypeId.Knotweed)
  near a1 ∨ near b1

/-- `harmonyCancelledByAccents(board, aIdx1, bIdx1)`. -/
def harmonyCancelledByAccents (b : Board) (a1 b1 : Nat) : Bool :=
  hasRockBlockingHarmony b a1 b1 ∨ isHarmonyCancelledByKnotweed b a1 b1

/-- `isHarmonyActivePair`. -/
def isHarmonyActivePair (b : Board) (a1 b1 : Nat)
    (aG : Garden) (aN : Nat) (bG : Garden) (bN : Nat) : Bool :=
  harmoniousPair aG aN bG bN ∧ ¬ harmonyCancelledByAccents b a1 b1

/-! ## Clash detection and Arrange validation (src/move.ts, current version:
1-based board indices, `coordsOf(idx - 1)` for coordinates) -/

/-- `detectAnyClash(board)`: any two aligned, line-of-sight-clear blooming
basics with the same number and different gardens. -/
def detectAnyClash (b : Board) : Bool :=
  (List.range 249).any (fun i =>
    match getPieceDescriptor b (i + 1) with
    | .basic _ aG aN aBloom =>
      aBloom &&
      (List.range 249).any (fun j =>
        if i = j then false
        else
          match getPieceDescriptor b (j + 1) with
          | .basic _ bG bN bBloom =>
            bBloom &&
            (let aC := coordsOf i
             let bC := coordsOf j
             (decide (aC.x = bC.x) || decide (aC.y = bC.y)) &&
             lineOfSightClear b (i + 1) (j + 1) &&
             isClashPair aG aN bG bN)
          | _ => false)
    | _ => false)

/-- Step loop of `validateArrange` over the remaining path.  `i` is the step
counter (for the error text), `prev`/`seen` are the previous square and the
set of visited squares; a step is final when no squares remain after it.
Returns the first failure reason, if any. -/
def arrangeSteps (b : Board) (desc : PieceKind) :
    Nat → Nat → List Nat → List Nat → Option String
  | _, _, _, [] => none
  | i, prev, seen, cur :: rest =>
    let pc := coordsOf (prev - 1)
    let cc := coordsOf (cur - 1)
    if (pc.x - cc.x).natAbs + (pc.y - cc.y).natAbs ≠ 1 then
      some ("non-orthogonal step at step " ++ toString i)
    else if cur ∈ seen then some "path revisits a square (redundant)"
    else
      let occ := getAtIndex b cur
      let isFinal := rest = []
      if occ ≠ 0 ∧ ¬ isFinal then some ("blocked at intermediate " ++ toString cur)
      else if isFinal ∧ isGateCoord cc.x cc.y then some "cannot end move in a gate"
      else
        match desc with
        | .basic _ g _ _ =>
          if isFinal ∧ getGardenType cc.x cc.y = .red ∧ g = .W then
            some "cannot end in opposite garden (red)"
          else if isFinal ∧ getGardenType cc.x cc.y = .white ∧ g = .R then
            some "cannot end in opposite garden (white)"
          else arrangeSteps b desc (i + 1) cur (cur :: seen) rest
        | _ => arrangeSteps b desc (i + 1) cur (cur :: seen) rest

/-- `validateArrange(board, fromIdx1, path)`: `.ok ()` models `{ok: true}` and
`.error reason` models `{ok: false, reason}`. -/
def validateArrange (b : Board) (from1 : Nat) (path : List Nat) : Except String Unit :=
  if path = [] then .error "empty path"
  else
    let packed := getAtIndex b from1
    if packed = 0 then .error "no piece at from index"
    else if ¬ isFlowerType (unpackType packed) then .error "only flower tiles may arrange"
    else if isTrappedByOrchid b from1 then .error "source flower is trapped by enemy orchid"
    else
      let desc := getPieceDescriptor b from1
      let limit :=
        match desc with
        | .basic _ _ n _ => n
        | .lotus _ _ => 2
        | .orchid _ _ _ => 6
        | _ => 0
      if limit < path.length then
        .error ("path too long: " ++ toString path.length ++ " > " ++ toString limit)
      else
        match arrangeSteps b desc 0 from1 [from1] path with
        | some r => .error r
        | none =>
          let final1 := path.getLastD 0
          let destPacked := getAtIndex b final1
          let s1 := setAtIndex b from1 0
          let s2 := if destPacked ≠ 0 then setAtIndex s1 final1 0 else s1
          let s3 := setAtIndex s2 final1 packed
          if detectAnyClash s3 then .error "move would create a Clash" else .ok ()

/-! ## Special-piece planners (src/rules.ts) -/

/-- One from→to pair of a plan. -/
structure IndexMove where
  fromIdx : Nat
  toIdx : Nat
deriving DecidableEq, Repr

/-- `CW_RING`: the clockwise ring offsets around a wheel center. -/
def cwRing : List XY :=
  [⟨-1, -1⟩, ⟨0, -1⟩, ⟨1, -1⟩, ⟨1, 0⟩, ⟨1, 1⟩, ⟨0, 1⟩, ⟨-1, 1⟩, ⟨-1, 0⟩]

/-- Loop body of `planWheelRotate` over the ring positions `k`: each occupied
slot moves to the previous slot's cell; missing slots or gate targets abort.
The gate test reads `coordsOf(to1)` with the 1-based index (shifted again). -/
def wheelLoop (b : Board) (cx cy : Int) : List Nat → Except String (List IndexMove)
  | [] => .ok []
  | k :: ks =>
    let fromRel := cwRing.getD k ⟨0, 0⟩
    let toRel := cwRing.getD ((k + 7) % 8) ⟨0, 0⟩
    let from0 := indexOfZ (cx + fromRel.x) (cy + fromRel.y)
    let to0 := indexOfZ (cx + toRel.x) (cy + toRel.y)
    if from0 = -1 ∨ to0 = -1 then .error "edge wheel - missing neighbor slot"
    else
      let from1 := from0.toNat + 1
      let to1 := to0.toNat + 1
      let p := getAtIndex b from1
      if p = 0 then wheelLoop b cx cy ks
      else
        let t := coordsOf to1
        if isGateCoord t.x t.y then .error "would move into gate"
        else
          match wheelLoop b cx cy ks with
          | .error e => .error e
          | .ok rest => .ok (⟨from1, to1⟩ :: rest)

/-- `planWheelRotate(board, wheelIdx1)`.  The center coordinates are
`coordsOf(wheelIdx1)` — the 1-based index fed to the 0-based table, so the
ring is computed around the NEXT cell's coordinates.  The final `Set`-size
collision test is modelled by `Nodup` on the target list. -/
def planWheelRotate (b : Board) (w1 : Nat) : Except String (List IndexMove) :=
  let here := getAtIndex b w1
  if here = 0 then .error "empty center"
  else if unpackType here ≠ TypeId.Wheel then .error "no wheel at center"
  else
    let c := coordsOf w1
    match wheelLoop b c.x c.y (List.range 8) with
    | .error e => .error e
    | .ok mapping =>
      if ¬ (mapping.map (·.toIdx)).Nodup then .error "collision on rotation"
      else .ok mapping

/-- `planBoatOnFlower(board, fromIdx1, toIdx1)` (blooming and both coordinate
reads use the 1-based indices on the 0-based table, as in the source). -/
def planBoatOnFlower (b : Board) (from1 to1 : Nat) : Except String (List IndexMove) :=
  let p := getAtIndex b from1
  if p = 0 then .error "no piece at source"
  else if ¬ isFlowerType (unpackType p) then .error "boat source not a flower"
  else if ¬ isBloomingIndex from1 then .error "flower is in a gate"
  else
    let f := coordsOf from1
    let t := coordsOf to1
    if max (f.x - t.x).natAbs (f.y - t.y).natAbs ≠ 1 then .error "target not adjacent"
    else if getAtIndex b to1 ≠ 0 then .error "target occupied"
    else if isGateCoord t.x t.y then .error "cannot boat into gate"
    else .ok [⟨from1, to1⟩]

/-- Accent type test. -/
def isAccentType (t : Nat) : Bool :=
  t = TypeId.Rock ∨ t = TypeId.Wheel ∨ t = TypeId.Boat ∨ t = TypeId.Knotweed

/-- `planBoatOnAccent(board, accentIdx1, boatIdx1)`: returns the two removal
targets. -/
def planBoatOnAccent (b : Board) (accent1 boat1 : Nat) : Except String (List Nat) :=
  let a := getAtIndex b accent1
  if a = 0 then .error "no accent at target"
  else if ¬ isAccentType (unpackType a) ∨ unpackType a = TypeId.Boat then
    .error "target is not a non-boat accent"
  else
    let bt := getAtIndex b boat1
    if bt = 0 then .error "no boat tile provided"
    else if unpackType bt ≠ TypeId.Boat then .error "source is not a boat tile"
    else .ok [accent1, boat1]

/-! ## Arrange move generation and application (src/engine.ts, current
version) -/

/-- A planned Arrange move (`PlannedArrange`): a source and a path of 1-based
indices. -/
structure PlannedArrange where
  fromIdx : Nat
  path : List Nat
deriving DecidableEq, Repr

/-- `belongsTo(packed, side)`. -/
def belongsTo (packed : Nat) (side : Owner) : Bool :=
  if packed = 0 then false else ownerOfPacked packed = side

/-- The 1-based orthogonal-neighbor table `NEIGHBORS4_1`.  Its defining file
is not among the included sources; it is modelled from the in-repo generator
`orthoNeighbors1` (engine.ts, earlier iteration), which lists the valid
orthogonal neighbors of `coordsOf(idx1 - 1)` as 1-based indices in the order
east, west, north, south. -/
def neighbors4_1 (idx1 : Nat) : List Nat :=
  let p := coordsOf (idx1 - 1)
  [(p.x + 1, p.y), (p.x - 1, p.y), (p.x, p.y + 1), (p.x, p.y - 1)].filterMap (fun c =>
    let t0 := indexOfZ c.1 c.2
    if t0 = -1 then none else some (t0.toNat + 1))

/-- The DFS of `generateLegalArrangeMoves`: paths grow one neighbor at a
time, no revisits via `seen`, and every non-empty path that passes
`validateArrange` is emitted.  `fuel` only drives termination; the source's
own guards (`limit < path.length` return, `path.length = limit` stop) bound
the recursion depth by `limit + 1`, so any fuel above that is equivalent. -/
def arrangeDfs (b : Board) (i limit : Nat) :
    Nat → List Nat → List Nat → List PlannedArrange
  | 0, _, _ => []
  | fuel + 1, path, seen =>
    if limit < path.length then []
    else
      let here :=
        if 0 < path.length ∧ validateArrange b i path = .ok () then [⟨i, path⟩] else []
      if path.length = limit then here
      else
        here ++ (neighbors4_1 (path.getLastD i)).flatMap (fun nxt =>
          if nxt ∈ seen then []
          else arrangeDfs b i limit fuel (path ++ [nxt]) (nxt :: seen))

/-- `generateLegalArrangeMoves(board, side)`: for every owned arrangeable
piece, run the DFS with the piece's movement limit (3/4/5 basics, 2 Lotus,
6 Orchid); the source's `limit <= 0` skip is kept. -/
def generateLegalArrangeMoves (b : Board) (side : Owner) : List PlannedArrange :=
  (List.range 249).flatMap (fun k =>
    let i := k + 1
    let packed := getAtIndex b i
    if ¬ belongsTo packed side then []
    else
      match getPieceDescriptor b i with
      | .basic _ _ n _ => if 0 < n then arrangeDfs b i n (n + 2) [] [i] else []
      | .lotus _ _ => arrangeDfs b i 2 4 [] [i]
      | .orchid _ _ _ => arrangeDfs b i 6 8 [] [i]
      | _ => [])

/-- `applyPlannedArrange(board, mv)`: clone, read mover and destination,
clear the source, clear a captured occupant, place the mover. -/
def applyPlannedArrange (b : Board) (mv : PlannedArrange) : Board :=
  let final1 := mv.path.getLastD 0
  let piece := getAtIndex b mv.fromIdx
  let dest := getAtIndex b final1
  let c1 := setAtIndex b mv.fromIdx 0
  let c2 := if dest ≠ 0 then setAtIndex c1 final1 0 else c1
  if piece ≠ 0 then setAtIndex c2 final1 piece else c2

/-! ## Apply helpers for special plans (src/parse.ts) -/

/-- Second loop of `applyWheel`: place each pulled piece on its target.  The
source reads `pulled.find(...)!`; a missing entry would crash there and is
modelled as an error result (the theorems show it cannot happen for plans
produced by `planWheelRotate`). -/
def placeMoves (pulled : List (Nat × Nat)) : List IndexMove → Board → Except String Board
  | [], bb => .ok bb
  | m :: ms, bb =>
    match pulled.find? (fun pp => pp.1 = m.fromIdx) with
    | some pp => placeMoves pulled ms (setAtIndex bb m.toIdx pp.2)
    | none => .error "wheel apply: pulled piece missing"

/-- One iteration of the first loop of `applyWheel`: read the source cell,
record it when occupied, then clear it. -/
def pullStep (st : Board × List (Nat × Nat)) (m : IndexMove) : Board × List (Nat × Nat) :=
  let p := getAtIndex st.1 m.fromIdx
  (setAtIndex st.1 m.fromIdx 0, if p ≠ 0 then st.2 ++ [(m.fromIdx, p)] else st.2)

/-- First loop of `applyWheel`: pull every occupied source and clear it (the
reads see the cells cleared by earlier iterations, as in the source). -/
def pullMoves (moves : List IndexMove) (b : Board) : Board × List (Nat × Nat) :=
  moves.foldl pullStep (b, [])

/-- `applyWheel(board, _side, center)`: plan, then apply on a clone; a planner
failure becomes the descriptive thrown error. -/
def applyWheel (b : Board) (center : Nat) : Except String Board :=
  match planWheelRotate b center with
  | .error r => .error ("wheel invalid: " ++ r)
  | .ok moves =>
    let pz := pullMoves moves b
    placeMoves pz.2 moves pz.1

/-- `applyBoatFlower(board, _side, _boat, from, to)`. -/
def applyBoatFlower (b : Board) (from1 to1 : Nat) : Except String Board :=
  match planBoatOnFlower b from1 to1 with
  | .error r => .error ("boatFlower invalid: " ++ r)
  | .ok _ =>
    let piece := getAtIndex b from1
    let dest := getAtIndex b to1
    if dest ≠ 0 then .error "boatFlower: target occupied"
    else
      let c1 := setAtIndex b from1 0
      .ok (if piece ≠ 0 then setAtIndex c1 to1 piece else c1)

/-- `applyBoatAccent(board, _side, boat, target)`. -/
def applyBoatAccent (b : Board) (boat target : Nat) : Except String Board :=
  match planBoatOnAccent b target boat with
  | .error r => .error ("boatAccent invalid: " ++ r)
  | .ok removeList => .ok (removeList.foldl (fun bb r => setAtIndex bb r 0) b)

/-! ## Search state at the top of a search (src/engine.ts) -/

/-- The move union searched by the engine (`AnyMove`). -/
inductive AnyMove where
  | arrange (fromIdx : Nat) (path : List Nat)
  | wheel (center : Nat)
  | boatFlower (boat fromIdx toIdx : Nat)
  | boatAccent (boat target : Nat)
deriving DecidableEq, Repr

-- Transposition-table bound types.
inductive TTFlag where
  | EXACT
  | LOWER
  | UPPER
deriving DecidableEq, Repr

/-- A transposition-table entry (`TTEntry`). -/
structure TTEntry where
  depth : Nat
  score : ℚ
  flag : TTFlag
  best : Option AnyMove
deriving DecidableEq

/-- The module-level mutable search state of engine.ts: the transposition
table `TT` (keyed by the Zobrist string), the per-ply `killers` pairs, the
`history` map (keyed by the JSON of the move, modelled by the move itself),
and the three `searchStats` counters. -/
structure SearchTables where
  tt : List (String × TTEntry)
  killers : List (Option AnyMove × Option AnyMove)
  history : List (AnyMove × Nat)
  nodes : Nat
  ttHits : Nat
  cutoffs : Nat

/-- The state transition at the top of `searchIterativeDeepening` (which is
all `pickBestMove` does before searching): `TT.clear()` and the three
`searchStats` resets.  No statement in `searchIterativeDeepening` or
`pickBestMove` writes `killers` or `history`; those are only updated inside
`searchAlphaBeta` on beta cutoffs. -/
def searchIterativeDeepeningInit (s : SearchTables) : SearchTables :=
  { s with tt := [], nodes := 0, ttHits := 0, cutoffs := 0 }

/-! ## Harmony graph and rings (src/move.ts, current version) -/

/-- `graph.get(k) || []` on the adjacency `Map` (insertion-ordered
association list). -/
def mapGet (m : List (Nat × List Nat)) (k : Nat) : List Nat :=
  ((m.find? (fun e => e.1 = k)).map (fun e => e.2)).getD []

/-- `graph.set(k, v)`: update in place if present (a JS `Map` keeps the key's
position), else append. -/
def mapSet (m : List (Nat × List Nat)) (k : Nat) (v : List Nat) : List (Nat × List Nat) :=
  if m.any (fun e => e.1 = k) then m.map (fun e => if e.1 = k then (k, v) else e)
  else m ++ [(k, v)]

/-- The ordered pairs (i outer, j inner, j after i) of the source's double
loop over `nodeIdxs`. -/
def pairsAsc : List Nat → List (Nat × Nat)
  | [] => []
  | a :: rest => rest.map (fun b2 => (a, b2)) ++ pairsAsc rest

/-- `buildHarmonyGraph(board)`: nodes are blooming basics; an edge needs a
shared axis, clear line of sight and `isHarmonyActivePair`.  (The source
reads the garden/number fields through `as any`; for the non-basic case —
impossible for members of `nodeIdxs` — `harmoniousPair(undefined, …)` is
false and no edge is added, which the wildcard arm reproduces.) -/
def buildHarmonyGraph (b : Board) : List (Nat × List Nat) :=
  let nodeIdxs := (List.range 249).filterMap (fun i =>
    match getPieceDescriptor b (i + 1) with
    | .basic _ _ _ true => some (i + 1)
    | _ => none)
  (pairsAsc nodeIdxs).foldl (fun g pr =>
    let a1 := pr.1
    let b1 := pr.2
    match getPieceDescriptor b a1, getPieceDescriptor b b1 with
    | .basic _ aG aN _, .basic _ bG bN _ =>
      let aC := coordsOf (a1 - 1)
      let bC := coordsOf (b1 - 1)
      if aC.x ≠ bC.x ∧ aC.y ≠ bC.y then g
      else if ¬ lineOfSightClear b a1 b1 then g
      else if isHarmonyActivePair b a1 b1 aG aN bG bN then
        let g1 := mapSet g a1 (mapGet g a1 ++ [b1])
        mapSet g1 b1 (mapGet g1 b1 ++ [a1])
      else g
    | _, _ => g) []

/-- Numeric ascending sort (`cycle.slice().sort((a,b) => a-b)`). -/
def insertSorted (x : Nat) : List Nat → List Nat
  | [] => [x]
  | y :: ys => if x ≤ y then x :: y :: ys else y :: insertSorted x ys

/-- Sorted copy of a cycle, the dedup key of `findHarmonyRings`. -/
def sortNat (l : List Nat) : List Nat := l.foldr insertSorted []

/-- Rational division written on raw numerators and denominators, so that it
evaluates by kernel reduction (the library's `Rat.inv` is irreducible);
`ratDiv_eq` proves it is exactly `ℚ` division. -/
def ratDiv (a b : ℚ) : ℚ := Rat.divInt (a.num * (b.den : Int)) ((a.den : Int) * b.num)

lemma ratDiv_eq (a b : ℚ) : ratDiv a b = a / b := by
  unfold ratDiv
  rw [Rat.div_def']

/-- Rational multiplication on raw parts; `ratMul_eq` proves it is `ℚ`
multiplication. -/
def ratMul (a b : ℚ) : ℚ := mkRat (a.num * b.num) (a.den * b.den)

lemma ratMul_eq (a b : ℚ) : ratMul a b = a * b := (Rat.mul_eq_mkRat a b).symm

/-- Rational subtraction on raw parts; `ratSub_eq` proves it is `ℚ`
subtraction. -/
def ratSub (a b : ℚ) : ℚ := mkRat (a.num * b.den - b.num * a.den) (a.den * b.den)

lemma ratSub_eq (a b : ℚ) : ratSub a b = a - b := by
  unfold ratSub
  rw [Rat.mkRat_eq_div]
  have ha : ((a.den : ℚ)) ≠ 0 := by exact_mod_cast a.den_ne_zero
  have hb : ((b.den : ℚ)) ≠ 0 := by exact_mod_cast b.den_ne_zero
  conv_rhs => rw [← Rat.num_div_den a, ← Rat.num_div_den b]
  rw [div_sub_div _ _ ha hb]
  push_cast
  ring_nf

/-- Rational addition on raw parts; `ratAdd_eq` proves it is `ℚ` addition. -/
def ratAdd (a b : ℚ) : ℚ := mkRat (a.num * b.den + b.num * a.den) (a.den * b.den)

lemma ratAdd_eq (a b : ℚ) : ratAdd a b = a + b := by
  unfold ratAdd
  rw [Rat.mkRat_eq_div]
  have ha : ((a.den : ℚ)) ≠ 0 := by exact_mod_cast a.den_ne_zero
  have hb : ((b.den : ℚ)) ≠ 0 := by exact_mod_cast b.den_ne_zero
  conv_rhs => rw [← Rat.num_div_den a, ← Rat.num_div_den b]
  rw [div_add_div _ _ ha hb]
  push_cast
  ring_nf

/-- `cycleEnclosesOrigin(cycle)`: the ray-casting test for the origin over
the cycle's coordinates in traversal order.  The source computes with IEEE
doubles; the model computes the same expressions in `ℚ` (with the literal
4503599627370496 = 2⁵², so `Number.EPSILON = 2⁻⁵²` is `mkRat 1 2⁵²`), using
the `rat*` forms of the operations (each proven equal to the standard `ℚ`
operation) so the whole test evaluates by reduction. -/
def cycleEnclosesOrigin (cycle : List Nat) : Bool :=
  let pts := cycle.map (fun i1 => coordsOf (i1 - 1))
  let n := pts.length
  (List.range n).foldl (fun inside i =>
    let pv := pts.getD i ⟨0, 0⟩
    let pw := pts.getD ((i + n - 1) % n) ⟨0, 0⟩
    let xi : ℚ := pv.x
    let yi : ℚ := pv.y
    let xj : ℚ := pw.x
    let yj : ℚ := pw.y
    let denom : ℚ := if ratSub yj yi = 0 then mkRat 1 4503599627370496 else ratSub yj yi
    let intersect :=
      (decide (0 < yi) != decide (0 < yj)) &&
      decide ((0 : ℚ) < ratAdd (ratDiv (ratMul (ratSub xj xi) (ratSub 0 yi)) denom) xi)
    if intersect then !inside else inside) false

/-- Accumulator of the ring DFS: the dedup keys already seen and the rings
collected so far. -/
structure RingState where
  visited : List (List Nat)
  rings : List (List Nat)
deriving DecidableEq, Repr

/-- Body of the `dfs` neighbor loop of `findHarmonyRings`, one neighbor `nb`
at a time: the parent edge is not re-walked; closing back to `start` with at
least 4 path nodes reports the cycle (deduplicated by sorted node set, kept
as a ring only when `encl` holds of it); otherwise unvisited nodes larger
than `start` are explored through `recur`. -/
def ringStep (encl : List Nat → Bool) (start : Nat) (parent : Option Nat)
    (path seen : List Nat) (recur : Nat → RingState → RingState)
    (st1 : RingState) (nb : Nat) : RingState :=
  if some nb = parent then st1
  else if nb = start ∧ 4 ≤ path.length then
    let key := sortNat path
    if key ∈ st1.visited then st1
    else
      { visited := key :: st1.visited,
        rings := if encl path then st1.rings ++ [path] else st1.rings }
  else if nb ∉ seen ∧ start < nb then recur nb st1
  else st1

/-- The `dfs` of `findHarmonyRings`: bounded at 20 path entries, folding
`ringStep` over the current node's neighbors.  `fuel` only drives
termination: the length guard bounds the recursion depth by 21, so any
larger fuel is equivalent. -/
def dfsRings (encl : List Nat → Bool) (g : List (Nat × List Nat)) (start : Nat) :
    Nat → Nat → Option Nat → List Nat → List Nat → RingState → RingState
  | 0, _, _, _, _, st => st
  | fuel + 1, curr, parent, path, seen, st =>
    if 20 < path.length then st
    else
      (mapGet g curr).foldl
        (ringStep encl start parent path seen (fun nb st1 =>
          dfsRings encl g start fuel nb (some curr) (path ++ [nb]) (nb :: seen) st1)) st

/-- `findHarmonyRings` with the enclosure predicate as a parameter (the
source hard-wires `cycleEnclosesOrigin`). -/
def findHarmonyRingsP (encl : List Nat → Bool) (b : Board) : List (List Nat) :=
  let g := buildHarmonyGraph b
  let nodes := g.map (fun e => e.1)
  (nodes.foldl (fun st start => dfsRings encl g start 32 start none [start] [start] st)
    ⟨[], []⟩).rings

/-- `findHarmonyRings(board)`. -/
def findHarmonyRings (b : Board) : List (List Nat) :=
  findHarmonyRingsP cycleEnclosesOrigin b

/-! ## Evaluator (src/eval.ts) -/

/-- `MATERIAL` weights (`?? 0` for codes outside the enum). -/
def pieceValue (t : Nat) : ℚ :=
  match t with
  | 1 => 3
  | 2 => 4
  | 3 => 5
  | 4 => 3
  | 5 => 4
  | 6 => 5
  | 7 => 7
  | 8 => 6
  | _ => 0

/-- `material(board)`: weighted sums per side as (host, guest). -/
def material (b : Board) : ℚ × ℚ :=
  (List.range 249).foldl (fun hg i =>
    let p := getAtIndex b (i + 1)
    if p = 0 then hg
    else
      let v := pieceValue (unpackType p)
      if unpackOwnerBit p = 0 then (hg.1 + v, hg.2) else (hg.1, hg.2 + v)) (0, 0)

/-- `pieceCount(board)` as (host, guest). -/
def pieceCount (b : Board) : Nat × Nat :=
  (List.range 249).foldl (fun hg i =>
    let p := getAtIndex b (i + 1)
    if p = 0 then hg
    else if unpackOwnerBit p = 0 then (hg.1 + 1, hg.2) else (hg.1, hg.2 + 1)) (0, 0)

/-- `harmonyDeg(board)`: per-side sums of harmony-graph degrees. -/
def harmonyDeg (b : Board) : Nat × Nat :=
  (buildHarmonyGraph b).foldl (fun hg e =>
    let p := getAtIndex b e.1
    if p = 0 then hg
    else if unpackOwnerBit p = 0 then (hg.1 + e.2.length, hg.2)
    else (hg.1, hg.2 + e.2.length)) (0, 0)

/-- `centerCount(board)`: pieces within Manhattan distance 3 of the origin
(`coordsOf(i - 1)`, the correct 0-based conversion here). -/
def centerCount (b : Board) : Nat × Nat :=
  (List.range 249).foldl (fun hg i =>
    let p := getAtIndex b (i + 1)
    if p = 0 then hg
    else
      let c := coordsOf i
      if ¬ (c.x.natAbs + c.y.natAbs ≤ 3) then hg
      else if unpackOwnerBit p = 0 then (hg.1 + 1, hg.2) else (hg.1, hg.2 + 1)) (0, 0)

/-- `mobility(board)`: Arrange move counts per side. -/
def mobility (b : Board) : Nat × Nat :=
  ((generateLegalArrangeMoves b .host).length, (generateLegalArrangeMoves b .guest).length)

/-- `gamePhase(board)`: total piece count over 40, clamped to [0, 1]. -/
def gamePhase (b : Board) : ℚ :=
  let pc := pieceCount b
  let t : ℚ := ((pc.1 + pc.2 : Nat) : ℚ) / 40
  if t < 0 then 0 else if 1 < t then 1 else t

/-- The five feature weights. -/
structure Features where
  materialDiff : ℚ
  pieceCountDiff : ℚ
  harmonyDegDiff : ℚ
  centerDiff : ℚ
  mobilityDiff : ℚ

/-- `OPENING_WEIGHTS`. -/
def openingWeights : Features := ⟨4/10, 18/10, 25/10, 12/10, 3/10⟩

/-- `ENDGAME_WEIGHTS`. -/
def endgameWeights : Features := ⟨18/10, 7/10, 32/10, 4/10, 1/10⟩

/-- `lerp(a, b, t)`. -/
def lerp (a b t : ℚ) : ℚ := a + (b - a) * t

/-- `blendedWeights(phase)`. -/
def blendedWeights (phase : ℚ) : Features :=
  ⟨lerp openingWeights.materialDiff endgameWeights.materialDiff phase,
   lerp openingWeights.pieceCountDiff endgameWeights.pieceCountDiff phase,
   lerp openingWeights.harmonyDegDiff endgameWeights.harmonyDegDiff phase,
   lerp openingWeights.centerDiff endgameWeights.centerDiff phase,
   lerp openingWeights.mobilityDiff endgameWeights.mobilityDiff phase⟩

/-- `evaluate(board, pov)` (eval.ts, current version): the (host − guest)
feature blend, sign-flipped for the guest point of view. -/
def evaluate (b : Board) (pov : Owner) : ℚ :=
  let m := material b
  let pc := pieceCount b
  let h := harmonyDeg b
  let c := centerCount b
  let mo := mobility b
  let phase := gamePhase b
  let w := blendedWeights phase
  let raw :=
    w.materialDiff * (m.1 - m.2) +
    w.pieceCountDiff * ((pc.1 : ℚ) - (pc.2 : ℚ)) +
    w.harmonyDegDiff * ((h.1 : ℚ) - (h.2 : ℚ)) +
    w.centerDiff * ((c.1 : ℚ) - (c.2 : ℚ)) +
    w.mobilityDiff * ((mo.1 : ℚ) - (mo.2 : ℚ))
  match pov with
  | .host => raw
  | .guest => -raw

/-! ## Helper lemmas -/

set_option maxRecDepth 20000 in
set_option maxHeartbeats 1000000 in
/-- Index→coords→index round trip over the whole table. -/
lemma coords_roundtrip_all :
    ∀ i ∈ List.range 249, indexOfZ (coordsOf i).x (coordsOf i).y = (i : Int) := by decide

set_option maxRecDepth 20000 in
set_option maxHeartbeats 1000000 in
/-- Exhaustive check of `indexOfZ` over the 17×17 bounding box: a hit is in
range and inverts `coordsOf`. -/
lemma grid_cases :
    ∀ a ∈ List.range 17, ∀ c ∈ List.range 17,
      indexOfZ ((a : Int) - 8) ((c : Int) - 8) = -1 ∨
      (0 ≤ indexOfZ ((a : Int) - 8) ((c : Int) - 8) ∧
       indexOfZ ((a : Int) - 8) ((c : Int) - 8) < 249 ∧
       coordsOf (indexOfZ ((a : Int) - 8) ((c : Int) - 8)).toNat = ⟨(a : Int) - 8, (c : Int) - 8⟩) := by
  decide

/-- Every row width is at most 17. -/
lemma rowWidths_getD_le (n : Nat) : rowWidths.getD n 0 ≤ 17 := by
  rcases h : rowWidths[n]? with _ | v
  · simp [List.getD_eq_getElem?_getD, h]
  · have hv : v ∈ rowWidths := List.getElem?_mem h
    have hall : ∀ w ∈ rowWidths, w ≤ 17 := by decide
    simpa [List.getD_eq_getElem?_getD, h] using hall v hv

/-- `indexOfZ` only hits inside the 17×17 bounding box. -/
lemma indexOfZ_ne_bounds (x y : Int) (h : indexOfZ x y ≠ -1) :
    -8 ≤ x ∧ x ≤ 8 ∧ -8 ≤ y ∧ y ≤ 8 := by
  have hw := rowWidths_getD_le (y + 8).toNat
  simp only [indexOfZ] at h
  split_ifs at h with h1 h2
  · exact absurd rfl h
  · exact absurd rfl h
  · push_neg at h1 h2
    omega

/-- A hit of `indexOfZ` is in range and inverts `coordsOf`. -/
lemma indexOfZ_hit (x y : Int) (h : indexOfZ x y ≠ -1) :
    0 ≤ indexOfZ x y ∧ indexOfZ x y < 249 ∧ coordsOf (indexOfZ x y).toNat = ⟨x, y⟩ := by
  obtain ⟨hx1, hx2, hy1, hy2⟩ := indexOfZ_ne_bounds x y h
  have ha : (x + 8).toNat < 17 := by omega
  have hc : (y + 8).toNat < 17 := by omega
  have hxe : ((x + 8).toNat : Int) - 8 = x := by omega
  have hye : ((y + 8).toNat : Int) - 8 = y := by omega
  have hg := grid_cases (x + 8).toNat (List.mem_range.mpr ha) (y + 8).toNat (List.mem_range.mpr hc)
  rw [hxe, hye] at hg
  exact hg.resolve_left h

/-! ## Claim theorems -/

set_option maxRecDepth 20000 in
set_option maxHeartbeats 1000000 in
/-- C4: the grid has exactly 249 valid intersections, and `indexOf` and
`coordsOf` are mutual inverses over that domain: `indexOf` inverts
`coordsOf` on every valid index, and `coordsOf` inverts `indexOf` on every
coordinate pair that `indexOf` does not map to the -1 sentinel. -/
theorem grid_index_coords_bijection :
    numSquares = 249 ∧ xyByIndex.length = 249 ∧
    (∀ i : Nat, i < 249 → indexOfZ (coordsOf i).x (coordsOf i).y = (i : Int)) ∧
    (∀ x y : Int, indexOfZ x y ≠ -1 → coordsOf (indexOfZ x y).toNat = ⟨x, y⟩) := by
  refine ⟨by decide, by decide, ?_, ?_⟩
  · intro i hi
    exact coords_roundtrip_all i (List.mem_range.mpr hi)
  · intro x y h
    exact (indexOfZ_hit x y h).2.2

/-- Witness for C4 at concrete inputs: index 124 round trips, and (3, -2)
round trips. -/
theorem grid_index_coords_bijection_witness :
    indexOfZ (coordsOf 124).x (coordsOf 124).y = (124 : Int) ∧
    coordsOf (indexOfZ 3 (-2)).toNat = ⟨3, -2⟩ :=
  ⟨grid_index_coords_bijection.2.2.1 124 (by decide),
   grid_index_coords_bijection.2.2.2 3 (-2) (by decide)⟩

/-- C5: `intersectionType` returns gate exactly on (±8,0) and (0,±8);
neutral on non-gate points on a midline or diagonal; white exactly when
x·y > 0 and |x| ≠ |y|; red exactly when x·y < 0 and |x| ≠ |y|. -/
theorem intersectionType_characterization :
    ∀ x y : Int,
      (intersectionType x y = .gate ↔
        ((x = 8 ∨ x = -8) ∧ y = 0) ∨ ((y = 8 ∨ y = -8) ∧ x = 0)) ∧
      (¬ (((x = 8 ∨ x = -8) ∧ y = 0) ∨ ((y = 8 ∨ y = -8) ∧ x = 0)) →
        (x = 0 ∨ y = 0 ∨ x.natAbs = y.natAbs) → intersectionType x y = .neutral) ∧
      (intersectionType x y = .white ↔ 0 < x * y ∧ x.natAbs ≠ y.natAbs) ∧
      (intersectionType x y = .red ↔ x * y < 0 ∧ x.natAbs ≠ y.natAbs) := by
  intro x y
  by_cases hg : ((x = 8 ∨ x = -8) ∧ y = 0) ∨ ((y = 8 ∨ y = -8) ∧ x = 0)
  · have hgate : intersectionType x y = .gate := by
      simp only [intersectionType]
      rw [if_pos (by simp only [isGateCoord, decide_eq_true_eq]; omega)]
    have h0 : x * y = 0 := by
      rcases hg with ⟨_, rfl⟩ | ⟨_, rfl⟩
      · ring
      · ring
    refine ⟨iff_of_true hgate hg, fun hng _ => absurd hg hng, ?_, ?_⟩
    · exact iff_of_false (by simp [hgate]) (fun hc => by rw [h0] at hc; exact lt_irrefl 0 hc.1)
    · exact iff_of_false (by simp [hgate]) (fun hc => by rw [h0] at hc; exact lt_irrefl 0 hc.1)
  · have hgateF : isGateCoord x y = false := by
      simp only [isGateCoord, decide_eq_false_iff_not]
      omega
    by_cases hm : x = 0 ∨ y = 0
    · have h0 : x * y = 0 := by
        rcases hm with rfl | rfl
        · exact zero_mul y
        · exact mul_zero x
      have hneu : intersectionType x y = .neutral := by
        simp [intersectionType, hgateF, hm]
      refine ⟨iff_of_false (by simp [hneu]) hg, fun _ _ => hneu, ?_, ?_⟩
      · exact iff_of_false (by simp [hneu]) (fun hc => by rw [h0] at hc; exact lt_irrefl 0 hc.1)
      · exact iff_of_false (by simp [hneu]) (fun hc => by rw [h0] at hc; exact lt_irrefl 0 hc.1)
    · push_neg at hm
      by_cases hd : x.natAbs = y.natAbs
      · have hneu : intersectionType x y = .neutral := by
          simp [intersectionType, hgateF, hm.1, hm.2, hd]
        refine ⟨iff_of_false (by simp [hneu]) hg, fun _ _ => hneu, ?_, ?_⟩
        · exact iff_of_false (by simp [hneu]) (fun hc => hc.2 hd)
        · exact iff_of_false (by simp [hneu]) (fun hc => hc.2 hd)
      · have htri : 0 < x * y ∨ x * y < 0 := by
          rcases lt_trichotomy (x * y) 0 with h | h | h
          · exact Or.inr h
          · rcases mul_eq_zero.mp h with h | h
            · exact absurd h hm.1
            · exact absurd h hm.2
          · exact Or.inl h
        rcases htri with hp | hn
        · have hwhite : intersectionType x y = .white := by
            simp [intersectionType, hgateF, hm.1, hm.2, hd, hp]
          refine ⟨iff_of_false (by simp [hwhite]) hg, ?_, iff_of_true hwhite ⟨hp, hd⟩, ?_⟩
          · intro _ hmem
            rcases hmem with h | h | h
            · exact absurd h hm.1
            · exact absurd h hm.2
            · exact absurd h hd
          · exact iff_of_false (by simp [hwhite]) (fun hc => absurd hc.1 (asymm hp))
        · have hred : intersectionType x y = .red := by
            simp [intersectionType, hgateF, hm.1, hm.2, hd, asymm hn, hn]
          refine ⟨iff_of_false (by simp [hred]) hg, ?_, ?_, iff_of_true hred ⟨hn, hd⟩⟩
          · intro _ hmem
            rcases hmem with h | h | h
            · exact absurd h hm.1
            · exact absurd h hm.2
            · exact absurd h hd
          · exact iff_of_false (by simp [hred]) (fun hc => absurd hc.1 (asymm hn))

/-- Witness for C5 at concrete inputs: (2,3) is white, (-2,3) is red, (0,8)
is a gate, (5,5) is neutral. -/
theorem intersectionType_characterization_witness :
    intersectionType 2 3 = .white ∧ intersectionType (-2) 3 = .red ∧
    intersectionType 0 8 = .gate ∧ intersectionType 5 5 = .neutral :=
  ⟨((intersectionType_characterization 2 3).2.2.1).mpr (by decide),
   ((intersectionType_characterization (-2) 3).2.2.2).mpr (by decide),
   ((intersectionType_characterization 0 8).1).mpr (by decide),
   (intersectionType_characterization 5 5).2.1 (by decide) (by decide)⟩

/-- C9: the evaluation score is exactly antisymmetric in the point-of-view
argument: the same (host − guest) blend is computed and only its sign is
flipped. -/
theorem evaluate_pov_antisymmetric :
    ∀ b : Board, evaluate b .guest = -evaluate b .host := by
  intro b
  rfl

/-- A stale search state left behind by a previous top-level search. -/
def spentTables : SearchTables :=
  { tt := [("k", ⟨1, 0, .EXACT, none⟩)],
    killers := [(some (.wheel 3), none)],
    history := [(.wheel 3, 500)],
    nodes := 7, ttHits := 8, cutoffs := 9 }

/-- C3 counterexample: the start of a top-level search does NOT clear the
killer and history tables — a history entry (and a killer entry) left by a
previous `pickBestMove` call survives `searchIterativeDeepening`'s
initialization, which only clears the transposition table and counters. -/
theorem searchInit_keeps_killers_history_cex :
    (searchIterativeDeepeningInit spentTables).history = [(.wheel 3, 500)] ∧
    (searchIterativeDeepeningInit spentTables).history ≠ [] ∧
    (searchIterativeDeepeningInit spentTables).killers = [(some (.wheel 3), none)] ∧
    (searchIterativeDeepeningInit spentTables).killers ≠ [] ∧
    (searchIterativeDeepeningInit spentTables).tt = [] := by
  refine ⟨rfl, by simp [searchIterativeDeepeningInit, spentTables], rfl,
    by simp [searchIterativeDeepeningInit, spentTables], rfl⟩

/-- C3 (amended): at the start of every call to `pickBestMove` the
transposition table and the node counters are cleared, while the killer-move
and history tables are left untouched and persist across top-level calls. -/
theorem searchInit_clears_only_tt :
    ∀ s : SearchTables,
      (searchIterativeDeepeningInit s).tt = [] ∧
      (searchIterativeDeepeningInit s).nodes = 0 ∧
      (searchIterativeDeepeningInit s).ttHits = 0 ∧
      (searchIterativeDeepeningInit s).cutoffs = 0 ∧
      (searchIterativeDeepeningInit s).killers = s.killers ∧
      (searchIterativeDeepeningInit s).history = s.history := by
  intro s
  exact ⟨rfl, rfl, rfl, rfl, rfl, rfl⟩

/-- A host Lotus on (0,0) (cell 125) with a guest Orchid on the orthogonally
adjacent (-1,0) (cell 124). -/
def trapTestBoard : Board := fun i => if i = 125 then 7 else if i = 124 then 24 else 0

set_option maxRecDepth 20000 in
set_option maxHeartbeats 1000000 in
/-- C6 (bug evidence): cell 125 holds a host Lotus whose real coordinates are
(0,0); the enemy Orchid on cell 124 sits on (-1,0), one of the 8 real
neighbors of (0,0); yet `isTrappedByOrchid` misses it (it searches the
neighborhood of the shifted point `coordsOf(125) = (1,0)`) and
`validateArrange` accepts an Arrange of the trapped flower. -/
theorem orchid_trap_not_enforced :
    unpackType (getAtIndex trapTestBoard 125) = TypeId.Lotus ∧
    ownerOfPacked (getAtIndex trapTestBoard 125) = .host ∧
    unpackType (getAtIndex trapTestBoard 124) = TypeId.Orchid ∧
    ownerOfPacked (getAtIndex trapTestBoard 124) = .guest ∧
    coordsOf (125 - 1) = ⟨0, 0⟩ ∧ coordsOf (124 - 1) = ⟨-1, 0⟩ ∧
    (⟨-1, 0⟩ : XY) ∈ neigh8Deltas.map (fun d => (⟨0 + d.1, 0 + d.2⟩ : XY)) ∧
    isTrappedByOrchid trapTestBoard 125 = false ∧
    validateArrange trapTestBoard 125 [126] = .ok () := by
  decide

/-- A host Wheel on (0,0) (cell 125) with host Rocks on all 8 real neighbor
cells (107, 108, 109, 124, 126, 141, 142, 143). -/
def wheelTestBoard : Board := fun i =>
  if i = 125 then 10
  else if i = 107 ∨ i = 108 ∨ i = 109 ∨ i = 124 ∨ i = 126 ∨ i = 141 ∨ i = 142 ∨ i = 143 then 9
  else 0

set_option maxRecDepth 20000 in
set_option maxHeartbeats 1000000 in
/-- C8 (bug evidence): the Wheel on cell 125 has real coordinates (0,0), all
8 of its real ring slots exist and are occupied, and no cell of that ring is
a gate; the claim expects a plan of 8 moves permuting those 8 cells, but
`planWheelRotate` builds the ring around the shifted point
`coordsOf(125) = (1,0)` and returns only 5 moves — one of which moves the
Wheel itself (from 125) — with targets outside the occupied ring (cell 144). -/
theorem wheel_rotation_shifted_ring :
    unpackType (getAtIndex wheelTestBoard 125) = TypeId.Wheel ∧
    coordsOf (125 - 1) = ⟨0, 0⟩ ∧
    (neigh8Deltas.all (fun d =>
      getAtIndex wheelTestBoard ((indexOfZ (0 + d.1) (0 + d.2)).toNat + 1) ≠ 0)) = true ∧
    (cwRing.all (fun r => ¬ isGateCoord r.x r.y)) = true ∧
    planWheelRotate wheelTestBoard 125 =
      .ok [⟨108, 125⟩, ⟨109, 108⟩, ⟨143, 144⟩, ⟨142, 143⟩, ⟨125, 142⟩] := by
  decide

/-- A validated Arrange yields, when applied, exactly the board that
`validateArrange` simulated and found clash-free. -/
lemma validate_ok_no_clash (b : Board) (from1 : Nat) (path : List Nat)
    (h : validateArrange b from1 path = .ok ()) :
    detectAnyClash (applyPlannedArrange b ⟨from1, path⟩) = false := by
  simp only [validateArrange] at h
  split at h
  · simp at h
  split at h
  · simp at h
  next hpacked =>
  split at h
  · simp at h
  split at h
  · simp at h
  split at h
  · simp at h
  next hlimit =>
  split at h
  · simp at h
  next hsteps =>
  split at h
  · next hdest =>
    split at h
    · simp at h
    next hnc =>
    have happly : applyPlannedArrange b ⟨from1, path⟩ =
        setAtIndex (setAtIndex (setAtIndex b from1 0) (path.getLastD 0) 0)
          (path.getLastD 0) (getAtIndex b from1) := by
      have h0 : applyPlannedArrange b ⟨from1, path⟩ =
          if getAtIndex b from1 ≠ 0 then
            setAtIndex
              (if getAtIndex b (path.getLastD 0) ≠ 0
                then setAtIndex (setAtIndex b from1 0) (path.getLastD 0) 0
                else setAtIndex b from1 0)
              (path.getLastD 0) (getAtIndex b from1)
          else
            (if getAtIndex b (path.getLastD 0) ≠ 0
              then setAtIndex (setAtIndex b from1 0) (path.getLastD 0) 0
              else setAtIndex b from1 0) := rfl
      rw [h0, if_pos hpacked, if_pos hdest]
    rw [happly]
    simpa using hnc
  · next hdest =>
    split at h
    · simp at h
    next hnc =>
    have happly : applyPlannedArrange b ⟨from1, path⟩ =
        setAtIndex (setAtIndex b from1 0) (path.getLastD 0) (getAtIndex b from1) := by
      have h0 : applyPlannedArrange b ⟨from1, path⟩ =
          if getAtIndex b from1 ≠ 0 then
            setAtIndex
              (if getAtIndex b (path.getLastD 0) ≠ 0
                then setAtIndex (setAtIndex b from1 0) (path.getLastD 0) 0
                else setAtIndex b from1 0)
              (path.getLastD 0) (getAtIndex b from1)
          else
            (if getAtIndex b (path.getLastD 0) ≠ 0
              then setAtIndex (setAtIndex b from1 0) (path.getLastD 0) 0
              else setAtIndex b from1 0) := rfl
      rw [h0, if_pos hpacked, if_neg hdest]
    rw [happly]
    simpa using hnc

/-- Every move emitted by the Arrange DFS is rooted at the scanned piece,
has a non-empty path, and passes `validateArrange` on the original board. -/
lemma arrangeDfs_sound (b : Board) (i limit : Nat) :
    ∀ (fuel : Nat) (path seen : List Nat) (mv : PlannedArrange),
      mv ∈ arrangeDfs b i limit fuel path seen →
      mv.fromIdx = i ∧ mv.path ≠ [] ∧ validateArrange b i mv.path = .ok () := by
  intro fuel
  induction fuel with
  | zero =>
    intro path seen mv h
    simp [arrangeDfs] at h
  | succ n ih =>
    intro path seen mv h
    simp only [arrangeDfs] at h
    split at h
    · simp at h
    · have hHere : ∀ hh : mv ∈ (if 0 < path.length ∧ validateArrange b i path = .ok ()
          then [(⟨i, path⟩ : PlannedArrange)] else []),
          mv.fromIdx = i ∧ mv.path ≠ [] ∧ validateArrange b i mv.path = .ok () := by
        intro hh
        split at hh
        · next hc =>
          rw [List.mem_singleton] at hh
          subst hh
          exact ⟨rfl, List.length_pos.mp hc.1, hc.2⟩
        · simp at hh
      split at h
      · exact hHere h
      · rw [List.mem_append] at h
        rcases h with h | h
        · exact hHere h
        · rw [List.mem_flatMap] at h
          obtain ⟨nxt, _, h⟩ := h
          split at h
          · simp at h
          · exact ih _ _ _ h

/-- Every generated Arrange move has a non-empty path and passes
`validateArrange` against the board it was generated for. -/
lemma generate_sound (b : Board) (side : Owner) (mv : PlannedArrange)
    (h : mv ∈ generateLegalArrangeMoves b side) :
    mv.path ≠ [] ∧ validateArrange b mv.fromIdx mv.path = .ok () := by
  simp only [generateLegalArrangeMoves, List.mem_flatMap] at h
  obtain ⟨k, _, h⟩ := h
  split at h
  · simp at h
  · split at h
    · next _ _ n _ _ =>
      split at h
      · obtain ⟨hfrom, hne, hval⟩ := arrangeDfs_sound b (k + 1) n _ _ _ mv h
        rw [hfrom]
        exact ⟨hne, hval⟩
      · simp at h
    · obtain ⟨hfrom, hne, hval⟩ := arrangeDfs_sound b (k + 1) 2 _ _ _ mv h
      rw [hfrom]
      exact ⟨hne, hval⟩
    · obtain ⟨hfrom, hne, hval⟩ := arrangeDfs_sound b (k + 1) 6 _ _ _ mv h
      rw [hfrom]
      exact ⟨hne, hval⟩
    · simp at h

/-- C2: every {from, path} returned by `generateLegalArrangeMoves`
independently passes `validateArrange` with `{ok: true}`, and the path is
non-empty. -/
theorem generateLegalArrangeMoves_validated :
    ∀ (b : Board) (side : Owner) (mv : PlannedArrange),
      mv ∈ generateLegalArrangeMoves b side →
      validateArrange b mv.fromIdx mv.path = .ok () ∧ mv.path ≠ [] := by
  intro b side mv h
  obtain ⟨hne, hval⟩ := generate_sound b side mv h
  exact ⟨hval, hne⟩

/-- C1: applying any generated Arrange move with `applyPlannedArrange` yields
a board on which `detectAnyClash` is false. -/
theorem generateLegalArrangeMoves_no_clash :
    ∀ (b : Board) (side : Owner) (mv : PlannedArrange),
      mv ∈ generateLegalArrangeMoves b side →
      detectAnyClash (applyPlannedArrange b mv) = false := by
  intro b side mv h
  obtain ⟨f, p⟩ := mv
  obtain ⟨_, hval⟩ := generate_sound b side ⟨f, p⟩ h
  exact validate_ok_no_clash b f p hval

/-- A board holding a single host Lotus on (0,0) (cell 125). -/
def lotusBoard : Board := fun i => if i = 125 then 7 else 0

set_option maxRecDepth 40000 in
set_option maxHeartbeats 2000000 in
/-- Witness for C2: the generated move 125 → [126] on `lotusBoard` validates
and has a non-empty path. -/
theorem generateLegalArrangeMoves_validated_witness :
    validateArrange lotusBoard 125 [126] = .ok () ∧ ([126] : List Nat) ≠ [] :=
  generateLegalArrangeMoves_validated lotusBoard .host ⟨125, [126]⟩ (by decide)

set_option maxRecDepth 40000 in
set_option maxHeartbeats 2000000 in
/-- Witness for C1: applying the generated move 125 → [126] on `lotusBoard`
leaves a clash-free board. -/
theorem generateLegalArrangeMoves_no_clash_witness :
    detectAnyClash (applyPlannedArrange lotusBoard ⟨125, [126]⟩) = false :=
  generateLegalArrangeMoves_no_clash lotusBoard .host ⟨125, [126]⟩ (by decide)

/-- Rings collected so far all have at least 4 pairwise-distinct nodes. -/
def RingsOk (st : RingState) : Prop :=
  ∀ c ∈ st.rings, 4 ≤ c.length ∧ c.Nodup

/-- One neighbor-loop pass preserves `RingsOk`, given the current path is
duplicate-free and the recursive explorer preserves `RingsOk` on unvisited
nodes. -/
lemma ringStep_foldl_sound (encl : List Nat → Bool) (start : Nat) (parent : Option Nat)
    (path seen : List Nat) (recur : Nat → RingState → RingState)
    (hrec : ∀ nb st1, nb ∉ seen → RingsOk st1 → RingsOk (recur nb st1)) (hnd : path.Nodup) :
    ∀ (l : List Nat) (st : RingState), RingsOk st →
      RingsOk (l.foldl (ringStep encl start parent path seen recur) st) := by
  intro l
  induction l with
  | nil => intro st hst; exact hst
  | cons nb l ihl =>
    intro st hst
    rw [List.foldl_cons]
    refine ihl _ ?_
    unfold ringStep
    split
    · exact hst
    split
    · next h2 =>
      dsimp only
      split
      · exact hst
      · intro c2 hc2
        dsimp only at hc2
        split at hc2
        · rcases List.mem_append.mp hc2 with hc2 | hc2
          · exact hst c2 hc2
          · rw [List.mem_singleton] at hc2
            subst hc2
            exact ⟨h2.2, hnd⟩
        · exact hst c2 hc2
    split
    · next h4 => exact hrec _ _ h4.1 hst
    · exact hst

/-- The ring DFS preserves `RingsOk` whenever the path is duplicate-free and
contained in `seen`. -/
lemma dfsRings_sound (encl : List Nat → Bool) (g : List (Nat × List Nat)) (start : Nat) :
    ∀ (fuel curr : Nat) (parent : Option Nat) (path seen : List Nat) (st : RingState),
      path.Nodup → (∀ x ∈ path, x ∈ seen) → RingsOk st →
      RingsOk (dfsRings encl g start fuel curr parent path seen st) := by
  intro fuel
  induction fuel with
  | zero =>
    intro curr parent path seen st _ _ hst
    exact hst
  | succ n ih =>
    intro curr parent path seen st hnd hsub hst
    rw [dfsRings]
    split
    · exact hst
    · refine ringStep_foldl_sound encl start parent path seen _ ?_ hnd _ st hst
      intro nb st1 hnb hst1
      have hnp : nb ∉ path := fun hmem => hnb (hsub nb hmem)
      refine ih nb (some curr) (path ++ [nb]) (nb :: seen) st1 ?_ ?_ hst1
      · rw [List.nodup_append]
        refine ⟨hnd, List.nodup_singleton nb, ?_⟩
        intro a ha hb
        rw [List.mem_singleton] at hb
        subst hb
        exact hnp ha
      · intro x hx
        rcases List.mem_append.mp hx with hx | hx
        · exact List.mem_cons_of_mem nb (hsub x hx)
        · rw [List.mem_singleton] at hx
          subst hx
          exact List.mem_cons_self x _

/-- The per-start fold of `findHarmonyRings` preserves `RingsOk`. -/
lemma ringsTopFold_sound (encl : List Nat → Bool) (g : List (Nat × List Nat)) :
    ∀ (nodes : List Nat) (st : RingState), RingsOk st →
      RingsOk (nodes.foldl
        (fun st1 start => dfsRings encl g start 32 start none [start] [start] st1) st) := by
  intro nodes
  induction nodes with
  | nil => intro st hst; exact hst
  | cons start nodes ihn =>
    intro st hst
    rw [List.foldl_cons]
    refine ihn _ ?_
    refine dfsRings_sound encl g start 32 start none [start] [start] st ?_ ?_ hst
    · exact List.nodup_singleton start
    · intro x hx
      exact hx

/-- C10: every cycle returned by `findHarmonyRings` contains at least 4
pairwise-distinct nodes — back-and-forth 2-cycles and triangles are never
reported — and this holds regardless of the enclosure predicate. -/
theorem findHarmonyRings_cycles_ge_four :
    (∀ (b : Board) (c : List Nat), c ∈ findHarmonyRings b → 4 ≤ c.length ∧ c.Nodup) ∧
    (∀ (encl : List Nat → Bool) (b : Board) (c : List Nat),
      c ∈ findHarmonyRingsP encl b → 4 ≤ c.length ∧ c.Nodup) := by
  have hP : ∀ (encl : List Nat → Bool) (b : Board) (c : List Nat),
      c ∈ findHarmonyRingsP encl b → 4 ≤ c.length ∧ c.Nodup := by
    intro encl b c hc
    unfold findHarmonyRingsP at hc
    exact ringsTopFold_sound encl (buildHarmonyGraph b) _ ⟨[], []⟩
      (by intro c2 hc2; simp at hc2) c hc
  exact ⟨fun b c hc => hP cycleEnclosesOrigin b c hc, hP⟩

/-- Four host basics (R3/R4 alternating) on (±1, ±1): a 4-cycle in the
harmony graph whose polygon encloses the origin. -/
def ringTestBoard : Board := fun i =>
  if i = 107 then 1 else if i = 109 then 2 else if i = 143 then 1 else if i = 141 then 2 else 0

set_option maxRecDepth 40000 in
set_option maxHeartbeats 4000000 in
/-- Witness for C10: the ring actually reported on `ringTestBoard` has 4
distinct nodes. -/
theorem findHarmonyRings_cycles_ge_four_witness :
    4 ≤ ([107, 109, 143, 141] : List Nat).length ∧ ([107, 109, 143, 141] : List Nat).Nodup :=
  findHarmonyRings_cycles_ge_four.1 ringTestBoard [107, 109, 143, 141] (by decide)

/-- Reading through a write. -/
lemma getAtIndex_setAtIndex (bb : Board) (i v j : Nat) :
    getAtIndex (setAtIndex bb i v) j =
      if j = i ∧ 1 ≤ j ∧ j ≤ 249 then v else getAtIndex bb j := by
  unfold getAtIndex setAtIndex
  by_cases h1 : j = i
  · subst h1
    by_cases h2 : 1 ≤ j ∧ j ≤ 249
    · simp [h2]
    · simp [h2]
  · by_cases h2 : 1 ≤ j ∧ j ≤ 249
    · simp [h1, h2]
    · simp [h1, h2]

/-- Every source of a wheel-loop plan was occupied on the board. -/
lemma wheelLoop_sources (b : Board) (cx cy : Int) :
    ∀ (ks : List Nat) (moves : List IndexMove), wheelLoop b cx cy ks = .ok moves →
      ∀ m ∈ moves, getAtIndex b m.fromIdx ≠ 0 := by
  intro ks
  induction ks with
  | nil =>
    intro moves h m hm
    simp only [wheelLoop] at h
    cases h
    simp at hm
  | cons k ks ih =>
    intro moves h m hm
    simp only [wheelLoop] at h
    split at h
    · exact absurd h (by simp)
    · split at h
      · exact ih _ h m hm
      · next hp =>
        split at h
        · exact absurd h (by simp)
        · split at h
          · exact absurd h (by simp)
          · next rest hrest =>
            cases h
            rcases List.mem_cons.mp hm with hm | hm
            · subst hm
              exact hp
            · exact ih rest hrest m hm

/-- Every source of a `planWheelRotate` plan was occupied on the board. -/
lemma planWheelRotate_sources (b : Board) (w1 : Nat) (moves : List IndexMove)
    (h : planWheelRotate b w1 = .ok moves) :
    ∀ m ∈ moves, getAtIndex b m.fromIdx ≠ 0 := by
  simp only [planWheelRotate] at h
  split at h
  · exact absurd h (by simp)
  split at h
  · exact absurd h (by simp)
  split at h
  · exact absurd h (by simp)
  · rename_i mapping hloop
    split at h
    · exact absurd h (by simp)
    · cases h
      exact wheelLoop_sources b _ _ _ _ hloop

/-- The pulled list only grows along the first `applyWheel` loop. -/
lemma pullStep_foldl_monotone :
    ∀ (ms : List IndexMove) (st : Board × List (Nat × Nat)) (e : Nat × Nat),
      e ∈ st.2 → e ∈ (ms.foldl pullStep st).2 := by
  intro ms
  induction ms with
  | nil => intro st e he; exact he
  | cons m ms ih =>
    intro st e he
    rw [List.foldl_cons]
    refine ih _ e ?_
    unfold pullStep
    dsimp only
    split
    · exact List.mem_append_left _ he
    · exact he

/-- Along the first `applyWheel` loop, a cell occupied on the original board
is either still occupied in the working board or already recorded in the
pulled list; hence after the loop every such source is recorded. -/
lemma pullMoves_covers (b : Board) :
    ∀ (ms : List IndexMove) (st : Board × List (Nat × Nat)),
      (∀ j, getAtIndex b j ≠ 0 → getAtIndex st.1 j ≠ 0 ∨ ∃ v, (j, v) ∈ st.2) →
      ∀ m ∈ ms, getAtIndex b m.fromIdx ≠ 0 →
        ∃ v, (m.fromIdx, v) ∈ (ms.foldl pullStep st).2 := by
  intro ms
  induction ms with
  | nil =>
    intro st hinv m hm
    simp at hm
  | cons m0 ms ih =>
    intro st hinv m hm hocc
    rw [List.foldl_cons]
    have hpres : ∀ j, getAtIndex b j ≠ 0 →
        getAtIndex (pullStep st m0).1 j ≠ 0 ∨ ∃ v, (j, v) ∈ (pullStep st m0).2 := by
      intro j hj
      unfold pullStep
      dsimp only
      rw [getAtIndex_setAtIndex]
      by_cases hji : j = m0.fromIdx ∧ 1 ≤ j ∧ j ≤ 249
      · rw [if_pos hji]
        rcases hinv j hj with hocc0 | ⟨v, hv⟩
        · right
          rw [if_pos (by rw [← hji.1]; exact hocc0)]
          exact ⟨getAtIndex st.1 j, by rw [hji.1]; exact List.mem_append_right _ (by simp)⟩
        · right
          refine ⟨v, ?_⟩
          split
          · exact List.mem_append_left _ hv
          · exact hv
      · rw [if_neg hji]
        rcases hinv j hj with hocc0 | ⟨v, hv⟩
        · exact Or.inl hocc0
        · right
          refine ⟨v, ?_⟩
          split
          · exact List.mem_append_left _ hv
          · exact hv
    rcases List.mem_cons.mp hm with hm | hm
    · subst hm
      rcases hpres m.fromIdx hocc with hstill | ⟨v, hv⟩
      · -- the step just cleared this very cell, so it must be recorded
        exfalso
        unfold pullStep at hstill
        dsimp only at hstill
        rw [getAtIndex_setAtIndex] at hstill
        by_cases hr : m.fromIdx = m.fromIdx ∧ 1 ≤ m.fromIdx ∧ m.fromIdx ≤ 249
        · rw [if_pos hr] at hstill
          exact hstill rfl
        · rw [if_neg hr] at hstill
          have : ¬ (1 ≤ m.fromIdx ∧ m.fromIdx ≤ 249) := fun hc => hr ⟨rfl, hc⟩
          have h0 : getAtIndex b m.fromIdx = 0 := by
            unfold getAtIndex
            rw [if_neg this]
          exact hocc h0
      · exact ⟨v, pullStep_foldl_monotone ms _ _ hv⟩
    · exact ih _ hpres m hm hocc

/-- `placeMoves` succeeds whenever each move's source is recorded. -/
lemma placeMoves_ok (pulled : List (Nat × Nat)) :
    ∀ (ms : List IndexMove) (bb : Board),
      (∀ m ∈ ms, ∃ v, (m.fromIdx, v) ∈ pulled) →
      ∃ b2, placeMoves pulled ms bb = .ok b2 := by
  intro ms
  induction ms with
  | nil => intro bb _; exact ⟨bb, rfl⟩
  | cons m ms ih =>
    intro bb hcov
    obtain ⟨v, hv⟩ := hcov m (List.mem_cons_self m ms)
    have hsome : (pulled.find? (fun pp => pp.1 = m.fromIdx)).isSome := by
      rw [List.find?_isSome]
      exact ⟨(m.fromIdx, v), hv, by simp⟩
    rw [placeMoves]
    rcases hf : pulled.find? (fun pp => pp.1 = m.fromIdx) with _ | pp
    · rw [hf] at hsome
      simp at hsome
    · rw [hf]
      exact ih _ (fun m2 hm2 => hcov m2 (List.mem_cons_of_mem m hm2))

/-- `planBoatOnFlower` accepts only an empty target cell. -/
lemma planBoatOnFlower_ok_target (b : Board) (f t : Nat) (mvs : List IndexMove)
    (h : planBoatOnFlower b f t = .ok mvs) : getAtIndex b t = 0 := by
  simp only [planBoatOnFlower] at h
  split at h
  · exact absurd h (by simp)
  split at h
  · exact absurd h (by simp)
  split at h
  · exact absurd h (by simp)
  split at h
  · exact absurd h (by simp)
  split at h
  · exact absurd h (by simp)
  next hocc =>
  push_neg at hocc
  exact hocc

/-- C7: each special apply throws its descriptive error exactly when the
corresponding planner rejects the plan against the supplied board, and on a
planner-accepted plan returns a new board cleanly (no other failure is
reachable); the input board itself, a value in this model, is never written
— every apply works on a clone.  The wheel and boat-flower indices stay
below 249 because the source's planner reads the coordinate table past its
end for index 249 (see `isBloomingIndex`). -/
theorem applySpecial_error_iff_planner_rejects :
    (∀ (b : Board) (c : Nat), 1 ≤ c → c ≤ 248 →
      (∀ r, planWheelRotate b c = .error r →
        applyWheel b c = .error ("wheel invalid: " ++ r)) ∧
      (∀ moves, planWheelRotate b c = .ok moves → ∃ b2, applyWheel b c = .ok b2)) ∧
    (∀ (b : Board) (f t : Nat), 1 ≤ f → f ≤ 248 → 1 ≤ t → t ≤ 248 →
      (∀ r, planBoatOnFlower b f t = .error r →
        applyBoatFlower b f t = .error ("boatFlower invalid: " ++ r)) ∧
      (∀ mvs, planBoatOnFlower b f t = .ok mvs → ∃ b2, applyBoatFlower b f t = .ok b2)) ∧
    (∀ (b : Board) (boat target : Nat),
      (∀ r, planBoatOnAccent b target boat = .error r →
        applyBoatAccent b boat target = .error ("boatAccent invalid: " ++ r)) ∧
      (∀ rm, planBoatOnAccent b target boat = .ok rm →
        ∃ b2, applyBoatAccent b boat target = .ok b2)) := by
  refine ⟨?_, ?_, ?_⟩
  · intro b c _ _
    constructor
    · intro r hr
      unfold applyWheel
      rw [hr]
    · intro moves hm
      unfold applyWheel
      rw [hm]
      refine placeMoves_ok _ moves _ ?_
      intro m hmem
      exact pullMoves_covers b moves (b, [])
        (fun j hj => Or.inl hj) m hmem (planWheelRotate_sources b c moves hm m hmem)
  · intro b f t _ _ _ _
    constructor
    · intro r hr
      unfold applyBoatFlower
      rw [hr]
    · intro mvs hm
      unfold applyBoatFlower
      rw [hm]
      have ht := planBoatOnFlower_ok_target b f t mvs hm
      rw [if_neg (by rw [ht]; exact fun hc => hc rfl)]
      exact ⟨_, rfl⟩
  · intro b boat target
    constructor
    · intro r hr
      unfold applyBoatAccent
      rw [hr]
    · intro rm hm
      unfold applyBoatAccent
      rw [hm]
      exact ⟨_, rfl⟩

/-- Witness for C7 at concrete inputs: on the empty board every planner
rejects and every apply throws the matching descriptive error; on
`wheelTestBoard` the planner accepts and the apply returns a board. -/
theorem applySpecial_error_iff_planner_rejects_witness :
    applyWheel emptyBoard 5 = .error "wheel invalid: empty center" ∧
    applyBoatFlower emptyBoard 5 6 = .error "boatFlower invalid: no piece at source" ∧
    applyBoatAccent emptyBoard 5 6 = .error "boatAccent invalid: no accent at target" ∧
    ∃ b2, applyWheel wheelTestBoard 125 = .ok b2 :=
  ⟨(applySpecial_error_iff_planner_rejects.1 emptyBoard 5 (by decide) (by decide)).1
      "empty center" (by decide),
   (applySpecial_error_iff_planner_rejects.2.1 emptyBoard 5 6 (by decide) (by decide)
      (by decide) (by decide)).1 "no piece at source" (by decide),
   (applySpecial_error_iff_planner_rejects.2.2 emptyBoard 5 6).1 "no accent at target"
      (by decide),
   (applySpecial_error_iff_planner_rejects.1 wheelTestBoard 125 (by decide) (by decide)).2
      [⟨108, 125⟩, ⟨109, 108⟩, ⟨143, 144⟩, ⟨142, 143⟩, ⟨125, 142⟩] (by decide)⟩

end PaiSho
